import Mathlib

/-!
Verification development for the GraphQL operation-to-TypeScript translator in
`src/commands/functions/functions-create.js`.

The JavaScript source is shallowly embedded below.  Conventions:

* GraphQL runtime types and AST type nodes are both represented by `TypeRef`
  (a named base type under `list` / `nonNull` wrappers); the schema is a
  finite map from type names to `TypeDef`s, so a "GraphQLObjectType object"
  from graphql-js corresponds to a `TypeRef.named` reference resolved through
  the schema.
* JavaScript exceptions are modelled with `Except String`; `undefined` /
  `null` values with `Option`.
* The two sources of potential non-termination in the JS code (expansion of
  object fields in `typeScriptForGraphQLType`, and expansion of fragment
  spreads in `typeScriptDefinitionObjectForOperation`) are modelled with a
  fuel parameter that decreases on every recursive call; exhausted fuel
  (`none` / a fuel error) corresponds to the JS code failing to terminate
  (or overflowing the stack).  All other recursions are structural.
-/

/-- A possibly wrapped GraphQL type reference: a named base type under any
number of `list` / `nonNull` wrappers.  Used both for runtime types and for
AST type nodes (graphql-js `ListType`/`NonNullType`/`NamedType`). -/
inductive TypeRef where
  | named (name : String)
  | list (ofType : TypeRef)
  | nonNull (ofType : TypeRef)
deriving DecidableEq, Repr

/-- A field descriptor: type reference, optional description and the names of
its declared arguments (the JS code only ever reads `arg.name`). -/
structure FieldDef where
  name : String
  type : TypeRef
  description : Option String
  args : List String
deriving DecidableEq, Repr

/-- A named type definition in the schema. -/
inductive TypeDef where
  | scalar (name : String)
  | enum (name : String) (values : List String)
  | object (name : String) (fields : List FieldDef)
  | inputObject (name : String) (fields : List FieldDef)
  | interface (name : String) (fields : List FieldDef)
  | union (name : String)
deriving DecidableEq, Repr

def TypeDef.nameOf : TypeDef → String
  | .scalar n => n
  | .enum n _ => n
  | .object n _ => n
  | .inputObject n _ => n
  | .interface n _ => n
  | .union n => n

/-- graphql-js `getFields()`: objects, input objects and interfaces have it;
calling it on a scalar, enum or union type raises a `TypeError` in JS,
modelled as `none` here (callers turn it into an error). -/
def TypeDef.getFields : TypeDef → Option (List FieldDef)
  | .object _ fs => some fs
  | .inputObject _ fs => some fs
  | .interface _ fs => some fs
  | _ => none

/-- The schema: named-type lookup plus the three optional root type names. -/
structure Schema where
  types : List TypeDef
  queryTypeName : Option String
  mutationTypeName : Option String
  subscriptionTypeName : Option String
deriving DecidableEq, Repr

def Schema.getType (schema : Schema) (name : String) : Option TypeDef :=
  schema.types.find? (fun td => td.nameOf = name)

def Schema.getQueryType (schema : Schema) : Option TypeDef :=
  schema.queryTypeName.bind schema.getType

def Schema.getMutationType (schema : Schema) : Option TypeDef :=
  schema.mutationTypeName.bind schema.getType

def Schema.getSubscriptionType (schema : Schema) : Option TypeDef :=
  schema.subscriptionTypeName.bind schema.getType

/-- graphql-js `isListType`. -/
def isListType : TypeRef → Bool
  | .list _ => true
  | _ => false

/-- graphql-js `isNonNullType`. -/
def isNonNullType : TypeRef → Bool
  | .nonNull _ => true
  | _ => false

/-- graphql-js `isWrappingType`. -/
def isWrappingType : TypeRef → Bool
  | .named _ => false
  | _ => true

/-- graphql-js `type.ofType` (absent, i.e. `undefined`, on a named type). -/
def ofTypeOpt : TypeRef → Option TypeRef
  | .named _ => none
  | .list t => some t
  | .nonNull t => some t

/-- graphql-js `getNamedType`: unwrap all wrappers down to the base name. -/
def getNamedTypeName : TypeRef → String
  | .named n => n
  | .list t => getNamedTypeName t
  | .nonNull t => getNamedTypeName t

/-- Join a list of strings with a separator, like JS `Array.prototype.join`. -/
def joinSep (sep : String) : List String → String
  | [] => ""
  | [x] => x
  | x :: rest => x ++ sep ++ joinSep sep rest

/-- Look up a key in an association list (JS object literal lookup). -/
def lookupStr (m : List (String × String)) (k : String) : Option String :=
  (m.find? (fun p => p.1 = k)).map (·.2)

/-- The scalar table local to `typeScriptForGraphQLType` (lines 681-687). -/
def scalarMapTs : List (String × String) :=
  [("String", "string"), ("ID", "string"), ("Int", "number"),
   ("Float", "number"), ("Boolean", "boolean")]

/-- The doc-comment prefix attached to a described field (lines 696-701). -/
def descriptionComment : Option String → String
  | none => ""
  | some d => "/**\n* " ++ d ++ "\n*/\n"

mutual
/-- Embedding of `typeScriptForGraphQLType` (lines 680-719).  The JS code
checks, in order: `isListType` (recurse inside `Array<...>`), object/input
object (expand fields), `isWrappingType` (a `nonNull` at this point: unwrap),
enum (union of quoted values), and otherwise `scalarMap[namedType?.name] ||
'any'`.  A non-null wrapper is never an object type in graphql-js, so the
`nonNull` arm can unwrap directly.  `none` = exhausted fuel (the JS function
recurses forever on a cyclic object type). -/
def typeScriptForGraphQLType (schema : Schema) : Nat → TypeRef → Option String
  | 0, _ => none
  | fuel + 1, .list t =>
    match typeScriptForGraphQLType schema fuel t with
    | none => none
    | some subType => some ("Array<" ++ subType ++ ">")
  | fuel + 1, .nonNull t => typeScriptForGraphQLType schema fuel t
  | fuel + 1, .named n =>
    match schema.getType n with
    | some (.object _ fields) =>
      match typeScriptFieldEntries schema fuel fields with
      | none => none
      | some entries => some ("\x7b" ++ joinSep ", " entries ++ "\x7d")
    | some (.inputObject _ fields) =>
      match typeScriptFieldEntries schema fuel fields with
      | none => none
      | some entries => some ("\x7b" ++ joinSep ", " entries ++ "\x7d")
    | some (.enum _ values) =>
      some (joinSep " | " (values.map (fun v => "\"" ++ v ++ "\"")))
    | _ => some ((lookupStr scalarMapTs n).getD "any")

/-- The field-expansion loop of `typeScriptForGraphQLType` (lines 693-703):
one entry `description"name"?: type` per field, `?` iff the field type is not
non-null wrapped. -/
def typeScriptFieldEntries (schema : Schema) : Nat → List FieldDef → Option (List String)
  | 0, _ => none
  | _ + 1, [] => some []
  | fuel + 1, field :: rest =>
    let nullable := !(isNonNullType field.type)
    match typeScriptForGraphQLType schema fuel field.type with
    | none => none
    | some ts =>
      match typeScriptFieldEntries schema fuel rest with
      | none => none
      | some entries =>
        some ((descriptionComment field.description ++ "\"" ++ field.name ++ "\"" ++
          (if nullable then "?" else "") ++ ": " ++ ts) :: entries)
end

/-- A variable declaration of an operation.  The JS AST path
`varDef.variable.name.value` is flattened to `variableName`. -/
structure VariableDefinition where
  variableName : String
  type : TypeRef
deriving DecidableEq, Repr

/-- A GraphQL value as used in field arguments.  Only the variants the code
constructs or compares are distinguished. -/
inductive GqlValue where
  | variable (name : String)
  | stringValue (s : String)
  | intValue (n : Int)
deriving DecidableEq, Repr

/-- A field argument (JS AST path `arg.name.value` flattened to `name`). -/
structure Argument where
  name : String
  value : GqlValue
deriving DecidableEq, Repr

/-- A selection in a selection set.  `field.arguments` and
`field.selectionSet` are optional exactly as in the graphql-js AST (the JS
code guards them with `?.` / `|| []`). -/
inductive Selection where
  | field (aliasName : Option String) (name : String) (arguments : Option (List Argument))
      (selectionSet : Option (List Selection))
  | inlineFragment (typeCondition : Option String) (selections : List Selection)
  | fragmentSpread (name : String)
deriving Repr

/-- An operation or fragment definition (the JS code distinguishes them by the
`kind` string and reads `operation` / `typeCondition` only where present). -/
structure Definition where
  kind : String
  operation : Option String
  name : Option String
  variableDefinitions : Option (List VariableDefinition)
  selectionSet : Option (List Selection)
  typeCondition : Option String
deriving Repr

/-- Print a type node back to GraphQL source text (graphql-js `print` applied
to a type node): `Name`, `[T]`, `T!`. -/
def printType : TypeRef → String
  | .named n => n
  | .list t => "[" ++ printType t ++ "]"
  | .nonNull t => printType t ++ "!"

def isNameChar (c : Char) : Bool := c.isAlphanum || c = '_'

/-- Consume one optional trailing `!` (graphql's `NonNullType` suffix). -/
def withBang (t : TypeRef) : List Char → TypeRef × List Char
  | '!' :: rest => (.nonNull t, rest)
  | rest => (t, rest)

/-- Recursive-descent parser for GraphQL type syntax as emitted by
`printType` (no interior whitespace): `Type := (Name | '[' Type ']') '!'?`. -/
def parseTypeAux : List Char → Option (TypeRef × List Char)
  | '[' :: rest =>
    match parseTypeAux rest with
    | some (inner, ']' :: rest') => some (withBang (.list inner) rest')
    | _ => none
  | cs =>
    let nameChars := cs.takeWhile isNameChar
    let rest := cs.dropWhile isNameChar
    if nameChars.isEmpty then none
    else some (withBang (.named ⟨nameChars⟩) rest)

/-- Embedding of graphql-js `parseType`: parse a full type string; a syntax
error (including trailing input) raises in JS, modelled as `none`. -/
def parseType (s : String) : Option TypeRef :=
  match parseTypeAux s.data with
  | some (t, []) => some t
  | _ => none

/-- Embedding of graphql-js `typeFromAST`: resolve a type node against the
schema; `none` when the base named type is not defined in the schema. -/
def typeFromAST (schema : Schema) : TypeRef → Option TypeRef
  | .named n => (schema.getType n).map (fun _ => .named n)
  | .list t => (typeFromAST schema t).map .list
  | .nonNull t => (typeFromAST schema t).map .nonNull

/-- The per-variable computation of `typeScriptSignatureForOperationVariables`
(lines 731-739): print the declared type, re-parse it, resolve it against the
schema and map it to TypeScript.  When `typeFromAST` yields `undefined`, the
JS call `typeScriptForGraphQLType(schema, undefined)` falls through every
branch to `'any'`.  `none` = the JS call failed to terminate (or `parseType`
threw, which cannot happen on `printType` output). -/
def typeScriptForVariable (schema : Schema) (fuel : Nat) (varDef : VariableDefinition) :
    Option String :=
  let printedType := printType varDef.type
  match parseType printedType with
  | none => none
  | some parsedType =>
    match typeFromAST schema parsedType with
    | none => some "any"
    | some gqlType => typeScriptForGraphQLType schema fuel gqlType

/-- Map the retained variables to `"name": tsType` entries (lines 731-740). -/
def typeScriptVariableEntries (schema : Schema) (fuel : Nat) :
    List (String × VariableDefinition) → Option (List String)
  | [] => some []
  | (varName, varDef) :: rest =>
    match typeScriptForVariable schema fuel varDef with
    | none => none
    | some tsType =>
      match typeScriptVariableEntries schema fuel rest with
      | none => none
      | some entries => some (("\"" ++ varName ++ "\": " ++ tsType) :: entries)

/-- Embedding of `typeScriptSignatureForOperationVariables` (lines 727-743).
The declared variables are mapped to `(name, varDef)` pairs, filtered to the
requested names (declaration order is preserved), rendered, joined and
wrapped in braces; the final line `types === '' ? 'null' : types` is kept
verbatim (note `types` always starts with `{`). -/
def typeScriptSignatureForOperationVariables (variableNames : List String)
    (schema : Schema) (operationDefinition : Definition) (fuel : Nat) : Option String :=
  let varPairs := ((operationDefinition.variableDefinitions.getD []).map
      (fun varDef => (varDef.variableName, varDef))).filter
      (fun p => variableNames.contains p.1)
  match typeScriptVariableEntries schema fuel varPairs with
  | none => none
  | some entries =>
    let typeFields := joinSep ", " entries
    let types := "\x7b" ++ typeFields ++ "\x7d"
    some (if types = "" then "null" else types)

/-- The counting loop of `listCount` (lines 745-765): walk wrappers counting
list wrappers; past `maximumDepth = 30` wrappers it warns and returns the
error sigil `-99`. -/
def listCountGo : TypeRef → Nat → Nat → Int
  | .named _, innerListCount, _ => innerListCount
  | .list inner, innerListCount, totalCount =>
    if totalCount + 1 > 30 then -99 else listCountGo inner (innerListCount + 1) (totalCount + 1)
  | .nonNull inner, innerListCount, totalCount =>
    if totalCount + 1 > 30 then -99 else listCountGo inner innerListCount (totalCount + 1)

/-- Embedding of `listCount` (lines 745-765). -/
def listCount (gqlType : TypeRef) : Int := listCountGo gqlType 0 0

/-- JS `String.prototype.startsWith`. -/
def strStartsWith (s pre : String) : Bool := pre.data.isPrefixOf s.data

/-- The intermediate type-shape values built by
`typeScriptDefinitionObjectForOperation`: a JS string tag, a `Set` of enum
values (in insertion = declaration order), an object (ordered entries
`name ↦ (type, description)`), or a singleton-array list marker. -/
inductive ShapeType where
  | prim (s : String)
  | enumSet (values : List String)
  | object (entries : List (String × ShapeType × Option String))
  | list (t : ShapeType)
deriving Repr

/-- One object entry: display name, shape type, optional description. -/
abbrev ShapeEntry := String × ShapeType × Option String

/-- An element of the mapped selection list inside the shape builder's
`helper`: JS `null`/`undefined`, a single entry pair, or an array produced by
an inline-fragment / fragment-spread branch. -/
inductive SubItem where
  | nullish
  | entry (e : ShapeEntry)
  | items (xs : List SubItem)
deriving Repr

def SubItem.isNullish : SubItem → Bool
  | .nullish => true
  | _ => false

/-- The `.reduce` at lines 835-841: an element whose first member is itself an
array (i.e. an array headed by an entry pair) is spliced; everything else is
appended unchanged. -/
def spliceReduce : List SubItem → List SubItem
  | [] => []
  | .items (.entry e :: xs) :: rest => (SubItem.entry e :: xs) ++ spliceReduce rest
  | x :: rest => x :: spliceReduce rest

/-- JS object property assignment: an existing key keeps its position and
receives the new value, a new key is appended. -/
def shapeAssign (acc : List ShapeEntry) (e : ShapeEntry) : List ShapeEntry :=
  if acc.any (fun x => x.1 = e.1) then
    acc.map (fun x => if x.1 = e.1 then (x.1, e.2.1, e.2.2) else x)
  else acc ++ [e]

/-- The exception message used for `Object.fromEntries` hitting a
`null`/`undefined` element (JS `TypeError`). -/
def entryUndefinedMessage : String :=
  "TypeError: Cannot read properties of undefined (reading 0)"

/-- JS `Object.fromEntries` over the reduced selection list (line 849).  A
`nullish` element throws in JS.  A nested-array element does not throw in JS:
it is coerced to a string property key, producing a type-confused entry; no
claim exercises that branch and it is modelled as a distinct error. -/
def fromEntriesSub (acc : List ShapeEntry) : List SubItem → Except String (List ShapeEntry)
  | [] => .ok acc
  | .nullish :: _ => .error entryUndefinedMessage
  | .entry e :: rest => fromEntriesSub (shapeAssign acc e) rest
  | .items _ :: _ => .error "unmodelled: array coerced to a property key"

/-- JS `Object.fromEntries` over the top-level selection results (line 883);
elements are `helper` results, and an `undefined` one throws in JS. -/
def fromEntriesTop (acc : List ShapeEntry) : List (Option ShapeEntry) → Except String (List ShapeEntry)
  | [] => .ok acc
  | none :: _ => .error entryUndefinedMessage
  | some e :: rest => fromEntriesTop (shapeAssign acc e) rest

/-- Wrap a shape in `n` singleton-array list markers (the `for` loop at lines
857-860; the loop body `finalType = [finalType]` runs `nestingLevel` times,
and a negative `nestingLevel`, e.g. the `-99` sigil, runs it zero times). -/
def nestList : Nat → ShapeType → ShapeType
  | 0, t => t
  | k + 1, t => .list (nestList k t)

/-- The scalar table local to `typeScriptDefinitionObjectForOperation`
(lines 768-776), which additionally maps `GitHubGitObjectID`. -/
def scalarMapShape : List (String × String) :=
  [("String", "string"), ("ID", "string"), ("Int", "number"),
   ("Float", "number"), ("Boolean", "boolean"), ("GitHubGitObjectID", "string")]

/-- Lookup `fragmentDefinitions[fragmentName]` (line 821; the singleton-array
key is coerced by JS to its single element). -/
def lookupFragment (fragmentDefinitions : List (String × Definition)) (name : String) :
    Option Definition :=
  (fragmentDefinitions.find? (fun p => p.1 = name)).map (·.2)

def Selection.aliasOf : Selection → Option String
  | .field a _ _ _ => a
  | _ => none

def Selection.nameOf : Selection → Option String
  | .field _ n _ _ => some n
  | .fragmentSpread n => some n
  | .inlineFragment _ _ => none

def Selection.selectionSetOf : Selection → Option (List Selection)
  | .field _ _ _ ss => ss
  | _ => none

/-- The message used where the model reaches fuel exhaustion; in JS the
corresponding execution recurses without bound (fragment cycles). -/
def fuelExhaustedMessage : String := "model: fuel exhausted (unbounded recursion in JS)"

/-- The `isList` computation of `helper` (lines 795-796):
`isListType(gqlType) || (!isNullable && isListType(gqlType.ofType))`, where
`isNullable = !isNonNullType(gqlType)`; an absent field type (`undefined`)
makes every conjunct false. -/
def fieldIsList : Option TypeRef → Bool
  | none => false
  | some t =>
    isListType t || (isNonNullType t && (match ofTypeOpt t with
      | some inner => isListType inner
      | none => false))

/-- The `nestingLevel` computation of `helper` (line 842):
`isList ? listCount(gqlType) : 0` (when `isList` holds the field type is
present, so the `none` arm is unreachable). -/
def fieldNestingLevel (gqlTypeOpt : Option TypeRef) : Int :=
  if fieldIsList gqlTypeOpt then
    match gqlTypeOpt with
    | some t => listCount t
    | none => 0
  else 0

mutual
/-- Embedding of the inner `helper(parentGqlType, selection)` of
`typeScriptDefinitionObjectForOperation` (lines 778-866).  Returns
`.ok none` where the JS function returns `undefined` (falsy parent, or the
`No returnType!` warning path), `.ok (some entry)` for a produced
`[displayedName, {type, description}]` pair, and `.error` where JS throws
(selection without a name, parent type without `getFields`, or
`Object.fromEntries` over an `undefined` element). -/
def helper (schema : Schema) (fragmentDefinitions : List (String × Definition)) :
    Nat → Option TypeRef → Selection → Except String (Option ShapeEntry)
  | 0, _, _ => .error fuelExhaustedMessage
  | _ + 1, none, _ => .ok none
  | fuel + 1, some parentGqlType, selection =>
    let parentNamedTypeName := getNamedTypeName parentGqlType
    match (schema.getType parentNamedTypeName).bind TypeDef.getFields with
    | none => .error "TypeError: parentNamedType.getFields is not a function"
    | some parentFields =>
      let aliasVal := selection.aliasOf
      let nameVal := selection.nameOf
      -- `field` is looked up (line 789) before the `__` check (line 791)
      let fieldDef : Option FieldDef := match nameVal with
        | none => none
        | some nm => parentFields.find? (fun f => f.name = nm)
      let gqlTypeOpt : Option TypeRef := fieldDef.map (·.type)
      match nameVal with
      | none => .error "TypeError: Cannot read properties of undefined (reading startsWith)"
      | some nm =>
        let displayedName := aliasVal.getD nm
        if strStartsWith nm "__" then
          .ok (some (displayedName, ShapeType.prim "any", some "Internal GraphQL field"))
        else
          let namedTypeName := gqlTypeOpt.map getNamedTypeName
          let namedTypeDef := namedTypeName.bind schema.getType
          let isObjectLike := match namedTypeDef with
            | some (.object _ _) => true
            | some (.union _) => true
            | some (.interface _ _) => true
            | _ => false
          match (match selection.selectionSetOf with
            | none => Except.ok Option.none
            | some sels =>
              match innerList schema fragmentDefinitions fuel namedTypeName sels with
              | .error e => .error e
              | .ok mapped => .ok (some (spliceReduce (mapped.filter (fun i => !i.isNullish))))) with
          | .error e => .error e
          | .ok sub =>
            -- a negative list count (the -99 sigil) makes the nesting loop run 0 times
            let nestingLevel : Int := fieldNestingLevel gqlTypeOpt
            let isEnum := match namedTypeDef with
              | some (.enum _ _) => true
              | _ => false
            let basicType : Option ShapeType :=
              if isEnum then
                match namedTypeDef with
                | some (.enum _ vs) => some (.enumSet vs)
                | _ => none
              else (lookupStr scalarMapShape (namedTypeName.getD "any")).map .prim
            match (if isObjectLike then
                match sub with
                | some items =>
                  match fromEntriesSub [] items with
                  | .error e => Except.error e
                  | .ok es => .ok (some (ShapeType.object es))
                | none => .ok none
              else match basicType with
                | some b => Except.ok (some b)
                | none => .ok (some (ShapeType.prim "any"))) with
            | .error e => .error e
            | .ok (some returnType) =>
              .ok (some (displayedName, nestList nestingLevel.toNat returnType,
                fieldDef.bind (·.description)))
            | .ok none => .ok none  -- console.warn('No returnType!'); returns undefined

/-- The inline-fragment sub-map (lines 809-815):
`selections.map(subSelection => helper(fragmentGqlType, subSelection))`. -/
def helperList (schema : Schema) (fragmentDefinitions : List (String × Definition)) :
    Nat → Option TypeRef → List Selection → Except String (List SubItem)
  | 0, _, _ => .error fuelExhaustedMessage
  | _ + 1, _, [] => .ok []
  | fuel + 1, parent, s :: rest =>
    match helper schema fragmentDefinitions fuel parent s with
    | .error e => .error e
    | .ok r =>
      match helperList schema fragmentDefinitions fuel parent rest with
      | .error e => .error e
      | .ok rs => .ok ((match r with
          | none => SubItem.nullish
          | some e => SubItem.entry e) :: rs)

/-- Embedding of the map callback `innerHelper` (lines 800-832) applied to a
single inner selection.  `parentName` is the enclosing field's named type
name (the closure variable `namedType`); note the fragment-spread branch
recurses with that same context, not with the fragment's type condition. -/
def innerItem (schema : Schema) (fragmentDefinitions : List (String × Definition)) :
    Nat → Option String → Selection → Except String SubItem
  | 0, _, _ => .error fuelExhaustedMessage
  | fuel + 1, parentName, .field a n args ss =>
    match helper schema fragmentDefinitions fuel (parentName.map .named) (.field a n args ss) with
    | .error e => .error e
    | .ok none => .ok .nullish
    | .ok (some e) => .ok (.entry e)
  | fuel + 1, _, .inlineFragment typeCondition sels =>
    match typeCondition with
    | none => .error "TypeError: Cannot read properties of undefined (reading kind)"
    | some cond =>
      match typeFromAST schema (.named cond) with
      | none => .ok .nullish
      | some fragmentGqlType =>
        match helperList schema fragmentDefinitions fuel (some fragmentGqlType) sels with
        | .error e => .error e
        | .ok xs => .ok (.items xs)
  | fuel + 1, parentName, .fragmentSpread fragmentName =>
    match lookupFragment fragmentDefinitions fragmentName with
    | some fragment =>
      match fragment.typeCondition with
      | none => .error "TypeError: Cannot read properties of undefined (reading kind)"
      | some cond =>
        match typeFromAST schema (.named cond) with
        | none => .ok .nullish
        | some _ =>  -- the resolved fragment type is checked but not used as context
          match fragment.selectionSet with
          | none => .error "TypeError: Cannot read properties of undefined (reading selections)"
          | some fsels =>
            match innerList schema fragmentDefinitions fuel parentName fsels with
            | .error e => .error e
            | .ok xs => .ok (.items xs)
    | none => .ok .nullish

/-- The map `selection.selectionSet?.selections.map(innerHelper)`
(lines 798-832). -/
def innerList (schema : Schema) (fragmentDefinitions : List (String × Definition)) :
    Nat → Option String → List Selection → Except String (List SubItem)
  | 0, _, _ => .error fuelExhaustedMessage
  | _ + 1, _, [] => .ok []
  | fuel + 1, parentName, s :: rest =>
    match innerItem schema fragmentDefinitions fuel parentName s with
    | .error e => .error e
    | .ok x =>
      match innerList schema fragmentDefinitions fuel parentName rest with
      | .error e => .error e
      | .ok xs => .ok (x :: xs)
end

/-- The root-type ternary chain (lines 867-878).  A `FragmentDefinition`
without a type condition would make JS throw while reading
`typeCondition.name`, hence the `Except`. -/
def baseGqlTypeOf (schema : Schema) (operationDefinition : Definition) :
    Except String (Option TypeRef) :=
  if operationDefinition.kind = "OperationDefinition" then
    if operationDefinition.operation = some "query" then
      .ok ((schema.getQueryType).map (fun td => TypeRef.named td.nameOf))
    else if operationDefinition.operation = some "mutation" then
      .ok ((schema.getMutationType).map (fun td => TypeRef.named td.nameOf))
    else if operationDefinition.operation = some "subscription" then
      .ok ((schema.getSubscriptionType).map (fun td => TypeRef.named td.nameOf))
    else .ok none
  else if operationDefinition.kind = "FragmentDefinition" then
    match operationDefinition.typeCondition with
    | none => .error "TypeError: Cannot read properties of undefined (reading name)"
    | some cond => .ok ((schema.getType cond).map (fun td => TypeRef.named td.nameOf))
  else .ok none

/-- The map `selections?.map(selection => helper(baseGqlType, selection))`
(line 880); the top level applies no `.filter(Boolean)`. -/
def topLevelEntries (schema : Schema) (fragmentDefinitions : List (String × Definition))
    (fuel : Nat) (base : Option TypeRef) :
    List Selection → Except String (List (Option ShapeEntry))
  | [] => .ok []
  | s :: rest =>
    match helper schema fragmentDefinitions fuel base s with
    | .error e => .error e
    | .ok r =>
      match topLevelEntries schema fragmentDefinitions fuel base rest with
      | .error e => .error e
      | .ok rs => .ok (r :: rs)

def dataDescription : String := "Any data retrieved by the const function be returned here"
def errorsDescription : String := "Any errors in the function will be returned here"

/-- The `data`/`errors` envelope returned when `sub` is `undefined`
(lines 897-907). -/
def anyEnvelope : List ShapeEntry :=
  [("data", .prim "any", some dataDescription),
   ("errors", .list (.prim "any"), some errorsDescription)]

/-- Embedding of `typeScriptDefinitionObjectForOperation` (lines 767-908). -/
def typeScriptDefinitionObjectForOperation (schema : Schema)
    (operationDefinition : Definition) (fragmentDefinitions : List (String × Definition))
    (fuel : Nat) : Except String (List ShapeEntry) :=
  match baseGqlTypeOf schema operationDefinition with
  | .error e => .error e
  | .ok baseGqlType =>
    match operationDefinition.selectionSet with
    | none => .ok anyEnvelope
    | some selections =>
      match topLevelEntries schema fragmentDefinitions fuel baseGqlType selections with
      | .error e => .error e
      | .ok sub =>
        match fromEntriesTop [] sub with
        | .error e => .error e
        | .ok object =>
          .ok [("data", .object object, some dataDescription),
               ("errors", .list (.prim "any"), some errorsDescription)]

/-- Compare two character lists by code point, returning a JS-style
`-1 / 0 / 1`. -/
def charListCompare : List Char → List Char → Int
  | [], [] => 0
  | [], _ :: _ => -1
  | _ :: _, [] => 1
  | a :: as, b :: bs =>
    if a.toNat < b.toNat then -1
    else if b.toNat < a.toNat then 1
    else charListCompare as bs

/-- Model of JS `String.prototype.localeCompare`.  ECMAScript leaves the
collation implementation-defined; this model compares by code point, which
agrees with typical locales on the plain lower-case ASCII variable names this
code sorts. -/
def localeCompare (left right : String) : Int := charListCompare left.data right.data

/-- Embedding of `extractVariableNameStringPair` (line 673):
`[varDef.variable.name.value, print(varDef.type)]`. -/
def extractVariableNameStringPair (varDef : VariableDefinition) : String × String :=
  (varDef.variableName, printType varDef.type)

/-- The sort comparator of `gatherVariableDefinitions` (line 676):
`([left], [right]) => left.localeCompare(right)` interpreted as a
"left-not-after-right" relation on `(name, printed type)` pairs. -/
def localeLe (left right : String × String) : Prop := localeCompare left.1 right.1 ≤ 0

instance : DecidableRel localeLe := fun _ _ => (inferInstance : Decidable (_ ≤ _))

/-- Embedding of `gatherVariableDefinitions` (lines 675-678): map the
declared variables (or `[]` when the definition or its variable list is
absent) to `(name, printed type)` pairs and sort by `localeCompare` on the
name.  `Array.prototype.sort` is a stable comparator sort, modelled with the
stable `List.insertionSort`. -/
def gatherVariableDefinitions (definition : Option Definition) : List (String × String) :=
  List.insertionSort localeLe
    (((definition.bind (·.variableDefinitions)).getD []).map extractVariableNameStringPair)

/-- JS `name.toLocaleLowerCase()` (ASCII model). -/
def jsToLower (s : String) : String := ⟨s.data.map Char.toLower⟩

/-- Remove the first occurrence of `pat` from a character list (JS
`String.prototype.replace` with a string pattern replaces only the first
occurrence). -/
def stripFirstAux (pat : List Char) : List Char → List Char
  | [] => []
  | c :: rest =>
    if pat.isPrefixOf (c :: rest) then (c :: rest).drop pat.length
    else c :: stripFirstAux pat rest

/-- Computes `typ.name.toLocaleLowerCase().replace('oneme', '')` (line 664). -/
def normalizeTypeName (s : String) : String :=
  ⟨stripFirstAux "oneme".data (jsToLower s).data⟩

/-- JS `Set.prototype.add` with insertion order kept, so that `[...types]`
returns first-insertion order. -/
def addType (acc : List String) (name : String) : List String :=
  let normalized := normalizeTypeName name
  if acc.contains normalized then acc else acc ++ [normalized]

/-- Whether a type definition is composite (object/interface/union), as
graphql-js `isCompositeType`. -/
def isCompositeTypeDef : TypeDef → Bool
  | .object _ _ => true
  | .interface _ _ => true
  | .union _ => true
  | _ => false

/-- graphql-js `TypeInfo`'s field-definition resolution
(`getFieldDef(schema, parentType, fieldNode)`): the `__schema` / `__type`
meta fields on the query root, `__typename` on any composite type, and
otherwise `getFields()[name]` on object/interface parents. -/
def getFieldDefType (schema : Schema) (parentName : Option String) (name : String) :
    Option TypeRef :=
  match parentName with
  | none => none
  | some pn =>
    match schema.getType pn with
    | none => none
    | some pdef =>
      if name = "__schema" ∧ schema.queryTypeName = some pn then
        some (.nonNull (.named "__Schema"))
      else if name = "__type" ∧ schema.queryTypeName = some pn then
        some (.named "__Type")
      else if name = "__typename" ∧ isCompositeTypeDef pdef then
        some (.nonNull (.named "String"))
      else
        match pdef with
        | .object _ fs => (fs.find? (fun f => f.name = name)).map (·.type)
        | .interface _ fs => (fs.find? (fun f => f.name = name)).map (·.type)
        | _ => none

mutual
/-- The visitor walk of `gatherAllReferencedTypes` (lines 654-671) over one
selection.  graphql-js `visitWithTypeInfo` updates a TypeInfo output-type
stack before the `enter` callback reads `typeInfo.getType()`; the set of
names added is exactly the set of named types pushed on that stack: the
type of every resolvable `Field` node and of every resolvable inline-fragment
type condition (all other nodes — arguments, variable definitions, names,
fragment spreads — read an already-recorded type, or an input type that
`getType` does not report, so they add nothing new and do not change
insertion order). -/
def collectSel (schema : Schema) : Option String → Selection → List String → List String
  | parent, .field _ name _ selectionSet, acc =>
    let fieldType := getFieldDefType schema parent name
    let acc1 := match fieldType with
      | some t => addType acc (getNamedTypeName t)
      | none => acc
    let childParent : Option String := match fieldType with
      | some t => some (getNamedTypeName t)
      | none => none
    match selectionSet with
    | none => acc1
    | some sels => collectSels schema childParent sels acc1
  | parent, .inlineFragment typeCondition sels, acc =>
    match typeCondition with
    | none =>
      -- no type condition: TypeInfo re-pushes the current named type (a no-op add)
      collectSels schema parent sels acc
    | some cond =>
      match schema.getType cond with
      | none => collectSels schema none sels acc
      | some td => collectSels schema (some cond) sels (addType acc td.nameOf)
  | _, .fragmentSpread _, acc => acc

def collectSels (schema : Schema) : Option String → List Selection → List String → List String
  | _, [], acc => acc
  | parent, s :: rest, acc => collectSels schema parent rest (collectSel schema parent s acc)
end

/-- The walk over one definition of the document: an operation pushes its
root type (or `undefined`), a fragment definition pushes its resolved type
condition; variable definitions only touch the input-type stack, which
`typeInfo.getType()` never reports, so their types are not collected. -/
def collectDef (schema : Schema) (d : Definition) (acc : List String) : List String :=
  if d.kind = "OperationDefinition" then
    let root : Option TypeDef :=
      if d.operation = some "query" then schema.getQueryType
      else if d.operation = some "mutation" then schema.getMutationType
      else if d.operation = some "subscription" then schema.getSubscriptionType
      else none
    let acc1 := match root with
      | some td => addType acc td.nameOf
      | none => acc
    let parent : Option String := root.map (·.nameOf)
    match d.selectionSet with
    | none => acc1
    | some sels => collectSels schema parent sels acc1
  else if d.kind = "FragmentDefinition" then
    match d.typeCondition with
    | none => (match d.selectionSet with
      | none => acc
      | some sels => collectSels schema none sels acc)
    | some cond =>
      match schema.getType cond with
      | none => (match d.selectionSet with
        | none => acc
        | some sels => collectSels schema none sels acc)
      | some td =>
        let acc1 := addType acc td.nameOf
        match d.selectionSet with
        | none => acc1
        | some sels => collectSels schema (some cond) sels acc1
  else acc

def collectDefs (schema : Schema) : List Definition → List String → List String
  | [], acc => acc
  | d :: rest, acc => collectDefs schema rest (collectDef schema d acc)

/-- Embedding of `gatherAllReferencedTypes` (lines 654-671): visit the whole
document with a `TypeInfo`, adding the lower-cased, `'oneme'`-stripped name
of the current named output type at every node, and return the set spread to
an array (insertion order). -/
def gatherAllReferencedTypes (schema : Schema) (query : List Definition) : List String :=
  collectDefs schema query []

/-- The injected `webhookUrl: $netligraphWebhookUrl` argument
(lines 978-991). -/
def webhookUrlArgument : Argument :=
  { name := "webhookUrl", value := .variable "netligraphWebhookUrl" }

/-- The injected non-null `String` variable declaration (lines 1004-1023). -/
def webhookUrlVariableDefinition : VariableDefinition :=
  { variableName := "netligraphWebhookUrl", type := .nonNull (.named "String") }

/-- The per-selection map of `patchSubscriptionWebhookField` (lines 968-996):
non-`Field` selections pass through; a field selection gains the
`webhookUrl: $netligraphWebhookUrl` argument when the subscription-root field
declares a `webhookUrl` argument and the selection does not already supply
it.  The lookup `subscriptionType.getFields()[selection.name.value]` is
unguarded: a missing field makes `field.args` throw in JS. -/
def patchWebhookSelection (fields : List FieldDef) (selection : Selection) :
    Except String Selection :=
  match selection with
  | .inlineFragment tc sels => .ok (.inlineFragment tc sels)
  | .fragmentSpread n => .ok (.fragmentSpread n)
  | .field aliasName name arguments selectionSet =>
    match fields.find? (fun f => f.name = name) with
    | none => .error "TypeError: Cannot read properties of undefined (reading args)"
    | some field =>
      let fieldHasWebhookUrlArg := field.args.any (fun arg => arg = "webhookUrl")
      let selectionHasWebhookUrlArg := (arguments.getD []).any (fun arg => arg.name = "webhookUrl")
      if fieldHasWebhookUrlArg && !selectionHasWebhookUrlArg then
        .ok (.field aliasName name (some ((arguments.getD []) ++ [webhookUrlArgument])) selectionSet)
      else
        .ok (.field aliasName name arguments selectionSet)

def patchWebhookSelections (fields : List FieldDef) :
    List Selection → Except String (List Selection)
  | [] => .ok []
  | s :: rest =>
    match patchWebhookSelection fields s with
    | .error e => .error e
    | .ok s' =>
      match patchWebhookSelections fields rest with
      | .error e => .error e
      | .ok rest' => .ok (s' :: rest')

/-- Embedding of `patchSubscriptionWebhookField` (lines 960-1032). -/
def patchSubscriptionWebhookField (schema : Schema) (definition : Definition) :
    Except String Definition :=
  if definition.operation ≠ some "subscription" then .ok definition
  else
    match schema.getSubscriptionType with
    | none => .ok definition
    | some subscriptionType =>
      match subscriptionType.getFields with
      | none => .error "TypeError: subscriptionType.getFields is not a function"
      | some fields =>
        match definition.selectionSet with
        | none => .error "TypeError: Cannot read properties of undefined (reading selections)"
        | some selections =>
          match patchWebhookSelections fields selections with
          | .error e => .error e
          | .ok newSelections =>
            let hasWebhookVariableDefinition := (definition.variableDefinitions.getD []).any
              (fun varDef => varDef.variableName = "netligraphWebhookUrl")
            let variableDefinitions := if hasWebhookVariableDefinition then
                definition.variableDefinitions.getD []
              else (definition.variableDefinitions.getD []) ++ [webhookUrlVariableDefinition]
            .ok { definition with
              variableDefinitions := some variableDefinitions,
              selectionSet := some newSelections }

/-- The injected `secret: $netligraphWebhookSecret` argument
(lines 1052-1065). -/
def webhookSecretArgument : Argument :=
  { name := "secret", value := .variable "netligraphWebhookSecret" }

/-- The injected non-null `OneGraphSubscriptionSecretInput` variable
declaration (lines 1078-1097). -/
def webhookSecretVariableDefinition : VariableDefinition :=
  { variableName := "netligraphWebhookSecret", type := .nonNull (.named "OneGraphSubscriptionSecretInput") }

/-- The per-selection map of `patchSubscriptionWebhookSecretField`
(lines 1042-1070). -/
def patchWebhookSecretSelection (fields : List FieldDef) (selection : Selection) :
    Except String Selection :=
  match selection with
  | .inlineFragment tc sels => .ok (.inlineFragment tc sels)
  | .fragmentSpread n => .ok (.fragmentSpread n)
  | .field aliasName name arguments selectionSet =>
    match fields.find? (fun f => f.name = name) with
    | none => .error "TypeError: Cannot read properties of undefined (reading args)"
    | some field =>
      let fieldHasWebhookSecretArg := field.args.any (fun arg => arg = "secret")
      let selectionHasWebhookSecretArg := (arguments.getD []).any (fun arg => arg.name = "secret")
      if fieldHasWebhookSecretArg && !selectionHasWebhookSecretArg then
        .ok (.field aliasName name (some ((arguments.getD []) ++ [webhookSecretArgument])) selectionSet)
      else
        .ok (.field aliasName name arguments selectionSet)

def patchWebhookSecretSelections (fields : List FieldDef) :
    List Selection → Except String (List Selection)
  | [] => .ok []
  | s :: rest =>
    match patchWebhookSecretSelection fields s with
    | .error e => .error e
    | .ok s' =>
      match patchWebhookSecretSelections fields rest with
      | .error e => .error e
      | .ok rest' => .ok (s' :: rest')

/-- Embedding of `patchSubscriptionWebhookSecretField` (lines 1034-1106). -/
def patchSubscriptionWebhookSecretField (schema : Schema) (definition : Definition) :
    Except String Definition :=
  if definition.operation ≠ some "subscription" then .ok definition
  else
    match schema.getSubscriptionType with
    | none => .ok definition
    | some subscriptionType =>
      match subscriptionType.getFields with
      | none => .error "TypeError: subscriptionType.getFields is not a function"
      | some fields =>
        match definition.selectionSet with
        | none => .error "TypeError: Cannot read properties of undefined (reading selections)"
        | some selections =>
          match patchWebhookSecretSelections fields selections with
          | .error e => .error e
          | .ok newSelections =>
            let hasWebhookVariableDefinition := (definition.variableDefinitions.getD []).any
              (fun varDef => varDef.variableName = "netligraphWebhookSecret")
            let variableDefinitions := if hasWebhookVariableDefinition then
                definition.variableDefinitions.getD []
              else (definition.variableDefinitions.getD []) ++ [webhookSecretVariableDefinition]
            .ok { definition with
              variableDefinitions := some variableDefinitions,
              selectionSet := some newSelections }

/-! ### Auxiliary notions used by the statements below -/

/-- One wrapper of a type reference. -/
inductive WrapKind where
  | list
  | nonNull
deriving DecidableEq, Repr

/-- Apply a stack of wrappers (outermost first) to a base type. -/
def applyWraps : List WrapKind → TypeRef → TypeRef
  | [], t => t
  | .list :: w, t => .list (applyWraps w t)
  | .nonNull :: w, t => .nonNull (applyWraps w t)

/-- The number of list wrappers in a wrapper stack. -/
def numListWraps : List WrapKind → Nat
  | [] => 0
  | .list :: w => numListWraps w + 1
  | .nonNull :: w => numListWraps w

/-- A wrapper stack constructible in graphql-js: `GraphQLNonNull` refuses a
non-null inner type, so `nonNull` never directly wraps `nonNull`. -/
def validWraps : List WrapKind → Bool
  | .nonNull :: .nonNull :: _ => false
  | _ :: rest => validWraps rest
  | [] => true

/-- Nest a TypeScript type expression in `n` `Array<...>` layers. -/
def nestArrayString : Nat → String → String
  | 0, s => s
  | k + 1, s => "Array<" ++ nestArrayString k s ++ ">"

/-- Whether a top-level selection is either not a `Field` or names a field
that exists among the given field descriptors (the patchers' implicit
precondition). -/
def selectionFieldExists (fields : List FieldDef) : Selection → Bool
  | .field _ name _ _ => (fields.find? (fun f => f.name = name)).isSome
  | _ => true

theorem charListCompare_le_total (as bs : List Char) :
    charListCompare as bs ≤ 0 ∨ charListCompare bs as ≤ 0 := by
  induction as generalizing bs with
  | nil => left; cases bs <;> simp [charListCompare]
  | cons a as ih =>
    cases bs with
    | nil => right; simp [charListCompare]
    | cons b bs =>
      simp only [charListCompare]
      rcases ih bs with h | h <;> split_ifs <;> omega

theorem charListCompare_le_trans (as bs cs : List Char)
    (h1 : charListCompare as bs ≤ 0) (h2 : charListCompare bs cs ≤ 0) :
    charListCompare as cs ≤ 0 := by
  induction as generalizing bs cs with
  | nil => cases cs <;> simp [charListCompare]
  | cons a as ih =>
    cases bs with
    | nil => simp [charListCompare] at h1
    | cons b bs =>
      cases cs with
      | nil => simp [charListCompare] at h2
      | cons c cs =>
        simp only [charListCompare] at h1 h2 ⊢
        split_ifs at h1 h2 ⊢ <;>
          first
          | omega
          | exact ih bs cs (by omega) (by omega)

instance : IsTotal (String × String) localeLe :=
  ⟨fun a b => charListCompare_le_total a.1.data b.1.data⟩

instance : IsTrans (String × String) localeLe :=
  ⟨fun a b c => charListCompare_le_trans a.1.data b.1.data c.1.data⟩

/-- Success test for `Except` (JS: the call returned rather than threw). -/
def exceptIsOk {ε α : Type} : Except ε α → Bool
  | .ok _ => true
  | .error _ => false

/-! ### Concrete fixtures -/

/-- The built-in scalar definitions shared by the concrete schemas. -/
def fixtureScalars : List TypeDef := [.scalar "String", .scalar "Int"]

/-- A schema with a single query root `Query { f : String }`. -/
def querySchema : Schema :=
  { types := [.object "Query" [⟨"f", .named "String", none, []⟩]] ++ fixtureScalars,
    queryTypeName := some "Query", mutationTypeName := none, subscriptionTypeName := none }

/-- The operation `query Q($a: Int, $b: String) { f }`. -/
def variablesQuery : Definition :=
  ⟨"OperationDefinition", some "query", some "Q",
    some [⟨"a", .named "Int"⟩, ⟨"b", .named "String"⟩],
    some [.field none "f" none none], none⟩

/-! ### C1 -/

/-- C1: the claim says that with no retained variables (in particular an
empty requested-name list) `typeScriptSignatureForOperationVariables` returns
the literal `'null'`.  The code instead always returns `'{}'` here: `types`
is built as `{...}` and can never equal `''`, so the `'null'` branch is dead.
This theorem evaluates the embedded code on an empty requested-name list for
every schema, operation and fuel: the result is the empty object expression
`'{}'`, never `'null'`. -/
theorem typeScriptSignatureForOperationVariables_empty_names (schema : Schema)
    (operationDefinition : Definition) (fuel : Nat) :
    typeScriptSignatureForOperationVariables [] schema operationDefinition fuel = some "\x7b\x7d" := by
  have hfilter : (((operationDefinition.variableDefinitions.getD []).map
      (fun varDef => (varDef.variableName, varDef))).filter
      (fun p => ([] : List String).contains p.1)) = [] := by
    simp
  simp only [typeScriptSignatureForOperationVariables, hfilter]
  rfl

/-! ### C7 -/

/-- The operation `query Q($b: String, $a: Int) { f }` — its declaration
order (`$b` before `$a`) is the reverse of the alphabetical order. -/
def variablesQueryReversed : Definition :=
  ⟨"OperationDefinition", some "query", some "Q",
    some [⟨"b", .named "String"⟩, ⟨"a", .named "Int"⟩],
    some [.field none "f" none none], none⟩

/-- C7: the retained-variable entries depend only on the membership of the
requested-name set (so its order is irrelevant), and entries follow the
declaration order of the operation's variables: on
`query Q($a: Int, $b: String) { f }` filtered to `["b"]` the signature is
`{"b": string}`, and filtering to the request list `["b", "a"]` yields the
declaration-ordered `{"a": number, "b": string}` (not the request order);
on `query Q($b: String, $a: Int) { f }` — declared in the reverse of
alphabetical order — the alphabetically ordered request `["a", "b"]` yields
`{"b": string, "a": number}`, i.e. declaration order, not name-sorted order
and not request order. -/
theorem typeScriptSignatureForOperationVariables_order
    : (∀ (schema : Schema) (d : Definition) (fuel : Nat) (names names' : List String),
        (∀ x, x ∈ names ↔ x ∈ names') →
        typeScriptSignatureForOperationVariables names schema d fuel =
          typeScriptSignatureForOperationVariables names' schema d fuel)
      ∧ typeScriptSignatureForOperationVariables ["b"] querySchema variablesQuery 9 =
          some "\x7b\"b\": string\x7d"
      ∧ typeScriptSignatureForOperationVariables ["b", "a"] querySchema variablesQuery 9 =
          some "\x7b\"a\": number, \"b\": string\x7d"
      ∧ typeScriptSignatureForOperationVariables ["a", "b"] querySchema
          variablesQueryReversed 9 = some "\x7b\"b\": string, \"a\": number\x7d" := by
  refine ⟨?_, rfl, rfl, rfl⟩
  intro schema d fuel names names' h
  simp only [typeScriptSignatureForOperationVariables]
  have : ∀ (l : List (String × VariableDefinition)),
      l.filter (fun p => names.contains p.1) = l.filter (fun p => names'.contains p.1) := by
    intro l
    apply List.filter_congr
    intro p _
    by_cases hp : p.1 ∈ names
    · simp [hp, (h p.1).mp hp]
    · have hp' : p.1 ∉ names' := fun hx => hp ((h p.1).mpr hx)
      simp [hp, hp']
  rw [this]

/-- Witness for C7: the two requested-name lists `["b", "a", "b"]` and
`["a", "b"]` have the same members, so the signatures agree — also on the
operation that declares `$b` before `$a`. -/
theorem typeScriptSignatureForOperationVariables_order_witness :
    typeScriptSignatureForOperationVariables ["b", "a", "b"] querySchema variablesQuery 9 =
      typeScriptSignatureForOperationVariables ["a", "b"] querySchema variablesQuery 9
    ∧ typeScriptSignatureForOperationVariables ["b", "a", "b"] querySchema
        variablesQueryReversed 9 =
      typeScriptSignatureForOperationVariables ["a", "b"] querySchema
        variablesQueryReversed 9 := by
  have hmem : ∀ x : String, x ∈ ["b", "a", "b"] ↔ x ∈ ["a", "b"] := by
    intro x
    constructor <;> (intro h; simp at h; rcases h with h | h <;> simp [h])
  exact ⟨typeScriptSignatureForOperationVariables_order.1 querySchema variablesQuery 9
      ["b", "a", "b"] ["a", "b"] hmem,
    typeScriptSignatureForOperationVariables_order.1 querySchema variablesQueryReversed 9
      ["b", "a", "b"] ["a", "b"] hmem⟩

/-! ### C10 -/

/-- C10: `gatherVariableDefinitions` returns the `(name, printed type)` pairs
sorted ascending by `localeCompare` on the name (not declaration order): the
result is sorted, it is a permutation of the declaration-order pairs, and it
is empty when no variables are declared. -/
theorem gatherVariableDefinitions_sorted (definition : Option Definition) :
    List.Sorted localeLe (gatherVariableDefinitions definition)
    ∧ (gatherVariableDefinitions definition).Perm
        (((definition.bind (·.variableDefinitions)).getD []).map extractVariableNameStringPair)
    ∧ (definition.bind (·.variableDefinitions) = none → gatherVariableDefinitions definition = []) := by
  refine ⟨List.sorted_insertionSort localeLe _, List.perm_insertionSort localeLe _, ?_⟩
  intro h
  simp [gatherVariableDefinitions, h]

/-- Witness for C10: `query Q($a: Int, $b: String)` declares `a` then `b`;
the gathered pairs are sorted and a reversed declaration order
(`$b` before `$a`) still comes out alphabetically. -/
theorem gatherVariableDefinitions_sorted_witness :
    List.Sorted localeLe (gatherVariableDefinitions (some variablesQuery))
    ∧ gatherVariableDefinitions (some variablesQuery) = [("a", "Int"), ("b", "String")]
    ∧ gatherVariableDefinitions (some
        ⟨"OperationDefinition", some "query", some "Q",
          some [⟨"b", .named "String"⟩, ⟨"a", .named "Int"⟩],
          some [.field none "f" none none], none⟩) = [("a", "Int"), ("b", "String")]
    ∧ gatherVariableDefinitions none = [] :=
  ⟨(gatherVariableDefinitions_sorted (some variablesQuery)).1, rfl, rfl,
    (gatherVariableDefinitions_sorted none).2.2 rfl⟩

/-! ### C8 -/

/-- C8: both webhook patchers are pure functions of their input (the
embedding returns a new `Definition` value and cannot mutate), and when the
definition is not a subscription operation or the schema has no subscription
root type, each returns exactly its input. -/
theorem patchers_noop (schema : Schema) (definition : Definition)
    (h : definition.operation ≠ some "subscription" ∨ schema.getSubscriptionType = none) :
    patchSubscriptionWebhookField schema definition = .ok definition
    ∧ patchSubscriptionWebhookSecretField schema definition = .ok definition := by
  by_cases hop : definition.operation = some "subscription"
  · rcases h with h | h
    · exact absurd hop h
    · constructor <;>
        simp [patchSubscriptionWebhookField, patchSubscriptionWebhookSecretField, hop, h]
  · constructor <;>
      simp [patchSubscriptionWebhookField, patchSubscriptionWebhookSecretField, hop]

/-- Witness for C8: a query operation against a schema without a
subscription root is returned unchanged by both patchers. -/
theorem patchers_noop_witness :
    patchSubscriptionWebhookField querySchema variablesQuery = .ok variablesQuery
    ∧ patchSubscriptionWebhookSecretField querySchema variablesQuery = .ok variablesQuery :=
  patchers_noop querySchema variablesQuery (.inl (by decide))

/-! ### C9 -/

theorem patchWebhookSelections_isOk (fields : List FieldDef) (sels : List Selection) :
    exceptIsOk (patchWebhookSelections fields sels) = sels.all (selectionFieldExists fields) := by
  induction sels with
  | nil => rfl
  | cons s rest ih =>
    cases s with
    | inlineFragment tc sl =>
      simp only [patchWebhookSelections, patchWebhookSelection, List.all_cons, selectionFieldExists]
      cases hr : patchWebhookSelections fields rest <;>
        simp_all [exceptIsOk]
    | fragmentSpread n =>
      simp only [patchWebhookSelections, patchWebhookSelection, List.all_cons, selectionFieldExists]
      cases hr : patchWebhookSelections fields rest <;>
        simp_all [exceptIsOk]
    | field a n args ss =>
      simp only [patchWebhookSelections, patchWebhookSelection, List.all_cons, selectionFieldExists]
      cases hf : fields.find? (fun f => f.name = n) with
      | none => simp [exceptIsOk]
      | some fd =>
        dsimp only
        split_ifs <;> (cases hr : patchWebhookSelections fields rest <;> simp_all [exceptIsOk])

theorem patchWebhookSecretSelections_isOk (fields : List FieldDef) (sels : List Selection) :
    exceptIsOk (patchWebhookSecretSelections fields sels) = sels.all (selectionFieldExists fields) := by
  induction sels with
  | nil => rfl
  | cons s rest ih =>
    cases s with
    | inlineFragment tc sl =>
      simp only [patchWebhookSecretSelections, patchWebhookSecretSelection, List.all_cons,
        selectionFieldExists]
      cases hr : patchWebhookSecretSelections fields rest <;>
        simp_all [exceptIsOk]
    | fragmentSpread n =>
      simp only [patchWebhookSecretSelections, patchWebhookSecretSelection, List.all_cons,
        selectionFieldExists]
      cases hr : patchWebhookSecretSelections fields rest <;>
        simp_all [exceptIsOk]
    | field a n args ss =>
      simp only [patchWebhookSecretSelections, patchWebhookSecretSelection, List.all_cons,
        selectionFieldExists]
      cases hf : fields.find? (fun f => f.name = n) with
      | none => simp [exceptIsOk]
      | some fd =>
        dsimp only
        split_ifs <;>
          (cases hr : patchWebhookSecretSelections fields rest <;> simp_all [exceptIsOk])

/-- C9: the patchers' field lookup is unguarded.  For a subscription
operation against a schema whose subscription root resolves, each patcher
succeeds exactly when every top-level `Field` selection names a field that
exists on the subscription root type; a selection naming an absent field
makes the `field.args` access throw. -/
theorem patchers_success_iff_fields_exist (schema : Schema) (d : Definition)
    (subscriptionType : TypeDef) (fields : List FieldDef) (sels : List Selection)
    (hop : d.operation = some "subscription")
    (hsub : schema.getSubscriptionType = some subscriptionType)
    (hfields : subscriptionType.getFields = some fields)
    (hsels : d.selectionSet = some sels) :
    exceptIsOk (patchSubscriptionWebhookField schema d) = sels.all (selectionFieldExists fields)
    ∧ exceptIsOk (patchSubscriptionWebhookSecretField schema d) =
        sels.all (selectionFieldExists fields) := by
  constructor
  · simp only [patchSubscriptionWebhookField, hop, hsub, hfields, hsels]
    rw [if_neg (by simp)]
    rw [← patchWebhookSelections_isOk fields sels]
    cases patchWebhookSelections fields sels <;> simp [exceptIsOk]
  · simp only [patchSubscriptionWebhookSecretField, hop, hsub, hfields, hsels]
    rw [if_neg (by simp)]
    rw [← patchWebhookSecretSelections_isOk fields sels]
    cases patchWebhookSecretSelections fields sels <;> simp [exceptIsOk]

/-- A schema with subscription root
`Subscription { onItemChanged(webhookUrl: String): Item }`. -/
def subscriptionSchema : Schema :=
  { types := [.object "Subscription" [⟨"onItemChanged", .named "Item", none, ["webhookUrl"]⟩],
      .object "Item" [⟨"id", .named "Int", none, []⟩]] ++ fixtureScalars,
    queryTypeName := none, mutationTypeName := none,
    subscriptionTypeName := some "Subscription" }

/-- The operation `subscription { missingField { id } }`: the selected field
does not exist on the subscription root. -/
def badSubscriptionDef : Definition :=
  ⟨"OperationDefinition", some "subscription", none, none,
    some [.field none "missingField" none (some [.field none "id" none none])], none⟩

/-- Witness for C9: on a subscription selecting a field absent from the
subscription root, both patchers' success test agrees with the (false)
all-fields-exist predicate, so both throw. -/
theorem patchers_success_iff_fields_exist_witness :
    (exceptIsOk (patchSubscriptionWebhookField subscriptionSchema badSubscriptionDef) =
      List.all [Selection.field none "missingField" none (some [.field none "id" none none])]
        (selectionFieldExists [⟨"onItemChanged", .named "Item", none, ["webhookUrl"]⟩]))
    ∧ List.all [Selection.field none "missingField" none (some [.field none "id" none none])]
        (selectionFieldExists [⟨"onItemChanged", .named "Item", none, ["webhookUrl"]⟩]) = false :=
  ⟨(patchers_success_iff_fields_exist subscriptionSchema badSubscriptionDef
      (.object "Subscription" [⟨"onItemChanged", .named "Item", none, ["webhookUrl"]⟩])
      [⟨"onItemChanged", .named "Item", none, ["webhookUrl"]⟩]
      [.field none "missingField" none (some [.field none "id" none none])]
      rfl rfl rfl rfl).1, rfl⟩

/-! ### C3 -/

theorem patchWebhookSelection_idem (fields : List FieldDef) (s s' : Selection)
    (h : patchWebhookSelection fields s = .ok s') :
    patchWebhookSelection fields s' = .ok s' := by
  cases s with
  | inlineFragment tc sl =>
    simp only [patchWebhookSelection] at h
    cases h
    rfl
  | fragmentSpread n =>
    simp only [patchWebhookSelection] at h
    cases h
    rfl
  | field a n args ss =>
    simp only [patchWebhookSelection] at h ⊢
    cases hf : fields.find? (fun f => f.name = n) with
    | none => rw [hf] at h; cases h
    | some fd =>
      simp only [hf] at h
      split_ifs at h with hc
      · cases h
        simp only [patchWebhookSelection, hf]
        rw [if_neg]
        simp only [Option.getD_some, List.any_append]
        simp [webhookUrlArgument]
      · cases h
        simp only [patchWebhookSelection, hf]
        rw [if_neg hc]

theorem patchWebhookSelections_idem (fields : List FieldDef) (sels out : List Selection)
    (h : patchWebhookSelections fields sels = .ok out) :
    patchWebhookSelections fields out = .ok out := by
  induction sels generalizing out with
  | nil =>
    simp only [patchWebhookSelections] at h
    cases h
    rfl
  | cons s rest ih =>
    simp only [patchWebhookSelections] at h
    cases hs : patchWebhookSelection fields s with
    | error e => rw [hs] at h; cases h
    | ok s' =>
      rw [hs] at h
      cases hr : patchWebhookSelections fields rest with
      | error e => rw [hr] at h; cases h
      | ok rest' =>
        rw [hr] at h
        cases h
        simp only [patchWebhookSelections]
        rw [patchWebhookSelection_idem fields s s' hs, ih rest' hr]

/-- C3: `patchSubscriptionWebhookField` is idempotent: whenever a first
application succeeds with `d'`, applying the patcher to `d'` succeeds and
returns `d'` unchanged — no duplicate `webhookUrl` argument and no duplicate
`netligraphWebhookUrl` variable declaration is added. -/
theorem patchSubscriptionWebhookField_idempotent (schema : Schema) (d d' : Definition)
    (h : patchSubscriptionWebhookField schema d = .ok d') :
    patchSubscriptionWebhookField schema d' = .ok d' := by
  by_cases hop : d.operation = some "subscription"
  · rw [patchSubscriptionWebhookField, if_neg (by simp [hop])] at h
    cases hsub : schema.getSubscriptionType with
    | none =>
      simp only [hsub] at h
      cases h
      rw [patchSubscriptionWebhookField, if_neg (by simp [hop]), hsub]
    | some subscriptionType =>
      simp only [hsub] at h
      cases hgf : subscriptionType.getFields with
      | none => simp only [hgf] at h; cases h
      | some fields =>
        simp only [hgf] at h
        cases hss : d.selectionSet with
        | none => simp only [hss] at h; cases h
        | some sels =>
          simp only [hss] at h
          cases hps : patchWebhookSelections fields sels with
          | error e => simp only [hps] at h; cases h
          | ok newSelections =>
            simp only [hps, Except.ok.injEq] at h
            subst h
            rw [patchSubscriptionWebhookField, if_neg (by simp [hop])]
            simp only [hsub, hgf]
            rw [patchWebhookSelections_idem fields sels newSelections hps]
            have hvar : (if (d.variableDefinitions.getD []).any
                  (fun varDef => varDef.variableName = "netligraphWebhookUrl") = true then
                d.variableDefinitions.getD []
              else d.variableDefinitions.getD [] ++ [webhookUrlVariableDefinition]).any
                (fun varDef => varDef.variableName = "netligraphWebhookUrl") = true := by
              split_ifs with hv
              · exact hv
              · simp [webhookUrlVariableDefinition]
            simp only [Option.getD_some, hvar, if_pos]
  · rw [patchSubscriptionWebhookField, if_pos (by simp [hop])] at h
    cases h
    rw [patchSubscriptionWebhookField, if_pos (by simp [hop])]

/-- The operation `subscription { onItemChanged { id } }` before patching. -/
def subscriptionDef : Definition :=
  ⟨"OperationDefinition", some "subscription", none, none,
    some [.field none "onItemChanged" none (some [.field none "id" none none])], none⟩

/-- The same subscription after patching: the selection carries
`webhookUrl: $netligraphWebhookUrl` and the operation declares the non-null
`String` variable `netligraphWebhookUrl`. -/
def patchedSubscriptionDef : Definition :=
  ⟨"OperationDefinition", some "subscription", none,
    some [webhookUrlVariableDefinition],
    some [.field none "onItemChanged" (some [webhookUrlArgument])
      (some [.field none "id" none none])], none⟩

/-- Witness for C3: patching `subscription { onItemChanged { id } }` against
`Subscription { onItemChanged(webhookUrl: String): Item }` adds the
`webhookUrl: $netligraphWebhookUrl` argument and the non-null `String`
variable `netligraphWebhookUrl`; re-patching the result changes nothing. -/
theorem patchSubscriptionWebhookField_idempotent_witness :
    patchSubscriptionWebhookField subscriptionSchema subscriptionDef =
      .ok patchedSubscriptionDef
    ∧ patchSubscriptionWebhookField subscriptionSchema patchedSubscriptionDef =
      .ok patchedSubscriptionDef :=
  ⟨rfl, patchSubscriptionWebhookField_idempotent subscriptionSchema subscriptionDef
    patchedSubscriptionDef rfl⟩

/-! ### C2 -/

theorem topLevelEntries_none_base (schema : Schema)
    (fragmentDefinitions : List (String × Definition)) (fuel : Nat) (sels : List Selection) :
    topLevelEntries schema fragmentDefinitions (fuel + 1) none sels =
      .ok (sels.map (fun _ => none)) := by
  induction sels with
  | nil => rfl
  | cons s rest ih => simp only [topLevelEntries, helper, ih, List.map_cons]

/-- C2 (amended): for an operation definition whose resolved root type is
absent, the shape builder degrades to an envelope only when the selection set
is absent (`any` data shape) or empty (empty object data shape); with a
non-empty selection set every top-level `helper` call returns `undefined` and
`Object.fromEntries` throws a `TypeError`, so the call raises instead of
returning an envelope. -/
theorem typeScriptDefinitionObjectForOperation_absent_root (schema : Schema) (d : Definition)
    (fragmentDefinitions : List (String × Definition)) (fuel : Nat)
    (_hkind : d.kind = "OperationDefinition")
    (hroot : baseGqlTypeOf schema d = .ok none) :
    (d.selectionSet = none →
      typeScriptDefinitionObjectForOperation schema d fragmentDefinitions (fuel + 1) =
        .ok anyEnvelope)
    ∧ (d.selectionSet = some [] →
      typeScriptDefinitionObjectForOperation schema d fragmentDefinitions (fuel + 1) =
        .ok [("data", ShapeType.object [], some dataDescription),
             ("errors", ShapeType.list (.prim "any"), some errorsDescription)])
    ∧ (∀ s ss, d.selectionSet = some (s :: ss) →
      typeScriptDefinitionObjectForOperation schema d fragmentDefinitions (fuel + 1) =
        .error entryUndefinedMessage) := by
  refine ⟨?_, ?_, ?_⟩
  · intro hss
    simp only [typeScriptDefinitionObjectForOperation, hroot, hss]
  · intro hss
    simp only [typeScriptDefinitionObjectForOperation, hroot, hss,
      topLevelEntries_none_base, List.map_nil]
    rfl
  · intro s ss hss
    simp only [typeScriptDefinitionObjectForOperation, hroot, hss,
      topLevelEntries_none_base, List.map_cons]
    rfl

/-- The operation `mutation M { f }` (to be run against a schema with no
mutation root). -/
def mutationNoRootDef : Definition :=
  ⟨"OperationDefinition", some "mutation", some "M", none,
    some [.field none "f" none none], none⟩

/-- Counterexample for C2: against `querySchema` (which has no mutation
root), the builder applied to `mutation M { f }` — an absent root with a
non-empty selection set — throws a `TypeError` instead of returning an
empty/`any` envelope, contradicting the claim's "regardless of whether the
operation's selection set is empty or non-empty". -/
theorem typeScriptDefinitionObjectForOperation_absent_root_counterexample :
    typeScriptDefinitionObjectForOperation querySchema mutationNoRootDef [] 10 =
      .error entryUndefinedMessage := rfl

/-- Witness for C2 (amended): the same absent-root mutation, with its
non-empty selection set, hits the error branch of the amended theorem; with
an empty selection set it degrades to the empty-object envelope. -/
theorem typeScriptDefinitionObjectForOperation_absent_root_witness :
    typeScriptDefinitionObjectForOperation querySchema mutationNoRootDef [] 10 =
      .error entryUndefinedMessage
    ∧ typeScriptDefinitionObjectForOperation querySchema
        ⟨"OperationDefinition", some "mutation", some "M", none, some [], none⟩ [] 10 =
      .ok [("data", ShapeType.object [], some dataDescription),
           ("errors", ShapeType.list (.prim "any"), some errorsDescription)] :=
  ⟨(typeScriptDefinitionObjectForOperation_absent_root querySchema mutationNoRootDef [] 9
      rfl rfl).2.2 (.field none "f" none none) [] rfl,
   (typeScriptDefinitionObjectForOperation_absent_root querySchema
      ⟨"OperationDefinition", some "mutation", some "M", none, some [], none⟩ [] 9
      rfl rfl).2.1 rfl⟩

/-! ### C5 -/

theorem listCountGo_applyWraps (w : List WrapKind) (n : String) (innerL total : Nat)
    (h : total + w.length ≤ 30) :
    listCountGo (applyWraps w (.named n)) innerL total = ((innerL + numListWraps w : Nat) : Int) := by
  induction w generalizing innerL total with
  | nil => simp [applyWraps, listCountGo, numListWraps]
  | cons k rest ih =>
    cases k with
    | list =>
      simp only [applyWraps, listCountGo, numListWraps]
      rw [if_neg (by simp at h ⊢; omega)]
      rw [ih (innerL + 1) (total + 1) (by simp at h ⊢; omega)]
      push_cast
      ring
    | nonNull =>
      simp only [applyWraps, listCountGo, numListWraps]
      rw [if_neg (by simp at h ⊢; omega)]
      exact ih innerL (total + 1) (by simp at h ⊢; omega)

/-- C5: for every wrapper stack constructible in graphql-js (no `nonNull`
directly wrapping `nonNull`) whose depth stays within the 30-wrapper guard,
`typeScriptForGraphQLType` maps the wrapped base type to the base type's
mapping nested in exactly one `Array<...>` layer per list wrapper (non-null
wrappers contribute nothing, and consume one unit of fuel each), and the
shape builder's nesting level (`fieldNestingLevel`, i.e.
`isList ? listCount(gqlType) : 0`) equals the number of list wrappers. -/
theorem typeScriptForGraphQLType_wrap_nesting (schema : Schema) (fuel : Nat)
    (w : List WrapKind) (n : String) (hvalid : validWraps w = true) (hdepth : w.length ≤ 30) :
    typeScriptForGraphQLType schema (fuel + w.length) (applyWraps w (.named n)) =
      (typeScriptForGraphQLType schema fuel (.named n)).map (nestArrayString (numListWraps w))
    ∧ (fieldNestingLevel (some (applyWraps w (.named n)))).toNat = numListWraps w := by
  constructor
  · clear hvalid hdepth
    induction w with
    | nil =>
      cases h : typeScriptForGraphQLType schema fuel (.named n) <;>
        simp [applyWraps, numListWraps, nestArrayString, h]
    | cons k rest ih =>
      cases k with
      | list =>
        have hlen : List.length (WrapKind.list :: rest) = rest.length + 1 := rfl
        rw [hlen, ← Nat.add_assoc]
        simp only [applyWraps, typeScriptForGraphQLType, ih, numListWraps]
        cases h : typeScriptForGraphQLType schema fuel (.named n) <;>
          simp [nestArrayString]
      | nonNull =>
        have hlen : List.length (WrapKind.nonNull :: rest) = rest.length + 1 := rfl
        rw [hlen, ← Nat.add_assoc]
        simp only [applyWraps, typeScriptForGraphQLType, ih, numListWraps]
  · match w, hvalid with
    | [], _ => rfl
    | [.nonNull], _ => rfl
    | .list :: rest, _ =>
      simp only [applyWraps, fieldIsList, isListType, Bool.true_or, if_pos, fieldNestingLevel,
        listCount]
      rw [show listCountGo (.list (applyWraps rest (.named n))) 0 0 =
          listCountGo (applyWraps (WrapKind.list :: rest) (.named n)) 0 0 from rfl]
      rw [listCountGo_applyWraps (WrapKind.list :: rest) n 0 0 (by simpa using hdepth)]
      simp [numListWraps]
    | .nonNull :: .list :: rest, _ =>
      simp only [applyWraps, fieldNestingLevel, fieldIsList, isListType, isNonNullType,
        ofTypeOpt, Bool.false_or, Bool.true_and, if_pos, listCount]
      rw [show listCountGo (.nonNull (.list (applyWraps rest (.named n)))) 0 0 =
          listCountGo (applyWraps (WrapKind.nonNull :: WrapKind.list :: rest) (.named n)) 0 0
          from rfl]
      rw [listCountGo_applyWraps (WrapKind.nonNull :: WrapKind.list :: rest) n 0 0
        (by simpa using hdepth)]
      simp [numListWraps]
    | .nonNull :: .nonNull :: rest, hvalid => simp [validWraps] at hvalid

/-- The type `[[Int!]!]`. -/
def doubleListTy : TypeRef := .list (.nonNull (.list (.nonNull (.named "Int"))))

/-- The wrapper stack of `[[Int!]!]`, outermost first. -/
def doubleListWraps : List WrapKind := [.list, .nonNull, .list, .nonNull]

/-- A schema whose query root declares `f : [[Int!]!]`. -/
def doubleListSchema : Schema :=
  { types := [.object "Query" [⟨"f", doubleListTy, none, []⟩]] ++ fixtureScalars,
    queryTypeName := some "Query", mutationTypeName := none, subscriptionTypeName := none }

/-- The operation `query Q { f }`. -/
def fieldOnlyQuery : Definition :=
  ⟨"OperationDefinition", some "query", some "Q", none,
    some [.field none "f" none none], none⟩

/-- Witness for C5: `[[Int!]!]` maps to `Array<Array<number>>`, its shape
nesting level is 2, and the full shape builder yields a doubly-nested list of
`number` for a field of that type. -/
theorem typeScriptForGraphQLType_wrap_nesting_witness :
    typeScriptForGraphQLType doubleListSchema 9 doubleListTy = some "Array<Array<number>>"
    ∧ (fieldNestingLevel (some doubleListTy)).toNat = 2
    ∧ typeScriptDefinitionObjectForOperation doubleListSchema fieldOnlyQuery [] 10 =
        .ok [("data", .object [("f", .list (.list (.prim "number")), none)], some dataDescription),
             ("errors", .list (.prim "any"), some errorsDescription)] := by
  have h := typeScriptForGraphQLType_wrap_nesting doubleListSchema 5 doubleListWraps "Int"
    (by decide) (by decide)
  exact ⟨h.1.trans (by rfl), h.2, rfl⟩

/-! ### C6 -/

theorem listCountGo_applyWraps_overflow (w : List WrapKind) (n : String) (innerL total : Nat)
    (hne : w ≠ []) (h : 30 < total + w.length) :
    listCountGo (applyWraps w (.named n)) innerL total = -99 := by
  induction w generalizing innerL total with
  | nil => exact absurd rfl hne
  | cons k rest ih =>
    have hstep : ∀ innerL' : Nat,
        (if total + 1 > 30 then (-99 : Int)
          else listCountGo (applyWraps rest (.named n)) innerL' (total + 1)) = -99 := by
      intro innerL'
      by_cases hb : total + 1 > 30
      · rw [if_pos hb]
      · rw [if_neg hb]
        have hrest : rest ≠ [] := by
          intro hr
          subst hr
          simp at h
          omega
        exact ih innerL' (total + 1) hrest (by simp at h ⊢; omega)
    cases k with
    | list =>
      simp only [applyWraps, listCountGo]
      exact hstep (innerL + 1)
    | nonNull =>
      simp only [applyWraps, listCountGo]
      exact hstep innerL

/-- C6 (amended): when a field's declared type has wrapping depth exceeding
the 30-wrapper guard, `listCount` detects the overrun (and logs a console
warning in JS) and returns the error sigil `-99`; the shape builder then runs
its nesting loop zero times, so the affected field's entry carries its base
type with *no* list nesting and no sentinel or error marker in the output; no
error is raised and the rest of the translation is unaffected. -/
theorem listCount_overflow_truncates (w : List WrapKind) (n : String)
    (h : 30 < w.length) :
    listCount (applyWraps w (.named n)) = -99
    ∧ (fieldNestingLevel (some (applyWraps w (.named n)))).toNat = 0
    ∧ ∀ rt : ShapeType, nestList (fieldNestingLevel (some (applyWraps w (.named n)))).toNat rt = rt := by
  have hne : w ≠ [] := by
    intro hw
    subst hw
    simp at h
  have h1 : listCount (applyWraps w (.named n)) = -99 :=
    listCountGo_applyWraps_overflow w n 0 0 hne (by omega)
  have h2 : (fieldNestingLevel (some (applyWraps w (.named n)))).toNat = 0 := by
    unfold fieldNestingLevel
    split_ifs
    · dsimp only
      rw [h1]
      rfl
    · rfl
  exact ⟨h1, h2, fun rt => by rw [h2]; rfl⟩

/-- Build `n` nested list wrappers around a base type. -/
def nestListTypeRef : Nat → TypeRef → TypeRef
  | 0, t => t
  | k + 1, t => .list (nestListTypeRef k t)

/-- A type with 31 list wrappers, one deeper than the guard allows. -/
def overrunTy : TypeRef := nestListTypeRef 31 (.named "Int")

/-- A schema whose query root declares `f : [31 nested lists of Int]` next to
an ordinary `g : String`. -/
def overrunSchema : Schema :=
  { types := [.object "Query" [⟨"f", overrunTy, none, []⟩, ⟨"g", .named "String", none, []⟩]]
      ++ fixtureScalars,
    queryTypeName := some "Query", mutationTypeName := none, subscriptionTypeName := none }

/-- The same schema with `f : Int` (no wrapping at all). -/
def overrunPlainSchema : Schema :=
  { types := [.object "Query" [⟨"f", .named "Int", none, []⟩, ⟨"g", .named "String", none, []⟩]]
      ++ fixtureScalars,
    queryTypeName := some "Query", mutationTypeName := none, subscriptionTypeName := none }

/-- The operation `query Q { f g }`. -/
def overrunQuery : Definition :=
  ⟨"OperationDefinition", some "query", some "Q", none,
    some [.field none "f" none none, .field none "g" none none], none⟩

/-- Counterexample for C6: with `f` declared at wrapping depth 31 the shape
builder's output is *identical* to the output for `f : Int` — the overrun
field's subtree is the plain base mapping `number` with no sentinel or error
marker anywhere (the claim says the affected subtree is truncated "with a
sentinel/error marker"); the sibling field `g` and the envelope are
unaffected and no error is raised. -/
theorem listCount_overflow_no_sentinel_counterexample :
    typeScriptDefinitionObjectForOperation overrunSchema overrunQuery [] 10 =
      typeScriptDefinitionObjectForOperation overrunPlainSchema overrunQuery [] 10
    ∧ typeScriptDefinitionObjectForOperation overrunSchema overrunQuery [] 10 =
      .ok [("data", .object [("f", .prim "number", none), ("g", .prim "string", none)],
          some dataDescription),
        ("errors", .list (.prim "any"), some errorsDescription)] :=
  ⟨rfl, rfl⟩

/-- Witness for C6 (amended): at 31 list wrappers the guard fires (`-99`),
the nesting level collapses to zero, and nesting the base mapping zero times
leaves it unchanged. -/
theorem listCount_overflow_truncates_witness :
    listCount (applyWraps (List.replicate 31 WrapKind.list) (.named "Int")) = -99
    ∧ (fieldNestingLevel (some (applyWraps (List.replicate 31 WrapKind.list) (.named "Int")))).toNat = 0
    ∧ nestList (fieldNestingLevel (some (applyWraps (List.replicate 31 WrapKind.list)
        (.named "Int")))).toNat (.prim "number") = .prim "number" := by
  have h := listCount_overflow_truncates (List.replicate 31 WrapKind.list) "Int" (by decide)
  exact ⟨h.1, h.2.1, h.2.2 (.prim "number")⟩

/-! ### C4 -/

theorem mem_addType {x : String} {acc : List String} (n : String) (h : x ∈ acc) :
    x ∈ addType acc n := by
  unfold addType
  dsimp only
  split_ifs
  · exact h
  · exact List.mem_append_left _ h

theorem self_mem_addType (acc : List String) (n : String) :
    normalizeTypeName n ∈ addType acc n := by
  unfold addType
  dsimp only
  split_ifs with hc
  · simpa using hc
  · simp

theorem nodup_addType {acc : List String} (n : String) (h : acc.Nodup) :
    (addType acc n).Nodup := by
  unfold addType
  dsimp only
  split_ifs with hc
  · exact h
  · have : normalizeTypeName n ∉ acc := by simpa using hc
    simp [List.nodup_append, h, this]

mutual
theorem mem_collectSel (schema : Schema) (x : String) :
    ∀ (parent : Option String) (s : Selection) (acc : List String),
      x ∈ acc → x ∈ collectSel schema parent s acc
  | parent, .field a n args none, acc, h => by
    simp only [collectSel]
    cases hft : getFieldDefType schema parent n <;> simp only
    · exact h
    · exact mem_addType _ h
  | parent, .field a n args (some sels), acc, h => by
    simp only [collectSel]
    cases hft : getFieldDefType schema parent n <;> simp only
    · exact mem_collectSels schema x none sels acc h
    · exact mem_collectSels schema x _ sels _ (mem_addType _ h)
  | parent, .inlineFragment none sels, acc, h => by
    simp only [collectSel]
    exact mem_collectSels schema x parent sels acc h
  | parent, .inlineFragment (some cond) sels, acc, h => by
    simp only [collectSel]
    cases htc : schema.getType cond <;> simp only
    · exact mem_collectSels schema x none sels acc h
    · exact mem_collectSels schema x (some cond) sels _ (mem_addType _ h)
  | parent, .fragmentSpread n, acc, h => by
    simpa only [collectSel] using h

theorem mem_collectSels (schema : Schema) (x : String) :
    ∀ (parent : Option String) (sels : List Selection) (acc : List String),
      x ∈ acc → x ∈ collectSels schema parent sels acc
  | parent, [], acc, h => by simpa only [collectSels] using h
  | parent, s :: rest, acc, h => by
    simp only [collectSels]
    exact mem_collectSels schema x parent rest _ (mem_collectSel schema x parent s acc h)
end

mutual
theorem nodup_collectSel (schema : Schema) :
    ∀ (parent : Option String) (s : Selection) (acc : List String),
      acc.Nodup → (collectSel schema parent s acc).Nodup
  | parent, .field a n args none, acc, h => by
    simp only [collectSel]
    cases hft : getFieldDefType schema parent n <;> simp only
    · exact h
    · exact nodup_addType _ h
  | parent, .field a n args (some sels), acc, h => by
    simp only [collectSel]
    cases hft : getFieldDefType schema parent n <;> simp only
    · exact nodup_collectSels schema none sels acc h
    · exact nodup_collectSels schema _ sels _ (nodup_addType _ h)
  | parent, .inlineFragment none sels, acc, h => by
    simp only [collectSel]
    exact nodup_collectSels schema parent sels acc h
  | parent, .inlineFragment (some cond) sels, acc, h => by
    simp only [collectSel]
    cases htc : schema.getType cond <;> simp only
    · exact nodup_collectSels schema none sels acc h
    · exact nodup_collectSels schema (some cond) sels _ (nodup_addType _ h)
  | parent, .fragmentSpread n, acc, h => by
    simpa only [collectSel] using h

theorem nodup_collectSels (schema : Schema) :
    ∀ (parent : Option String) (sels : List Selection) (acc : List String),
      acc.Nodup → (collectSels schema parent sels acc).Nodup
  | parent, [], acc, h => by simpa only [collectSels] using h
  | parent, s :: rest, acc, h => by
    simp only [collectSels]
    exact nodup_collectSels schema parent rest _ (nodup_collectSel schema parent s acc h)
end

theorem mem_collectDef (schema : Schema) (x : String) (d : Definition) (acc : List String)
    (h : x ∈ acc) : x ∈ collectDef schema d acc := by
  unfold collectDef
  dsimp only
  split_ifs <;> (repeat' split) <;>
    first
    | exact h
    | exact mem_addType _ h
    | exact mem_collectSels schema x _ _ _ h
    | exact mem_collectSels schema x _ _ _ (mem_addType _ h)

theorem nodup_collectDef (schema : Schema) (d : Definition) (acc : List String)
    (h : acc.Nodup) : (collectDef schema d acc).Nodup := by
  unfold collectDef
  dsimp only
  split_ifs <;> (repeat' split) <;>
    first
    | exact h
    | exact nodup_addType _ h
    | exact nodup_collectSels schema _ _ _ h
    | exact nodup_collectSels schema _ _ _ (nodup_addType _ h)

theorem mem_collectDefs (schema : Schema) (x : String) (doc : List Definition)
    (acc : List String) (h : x ∈ acc) : x ∈ collectDefs schema doc acc := by
  induction doc generalizing acc with
  | nil => simpa only [collectDefs] using h
  | cons d rest ih =>
    simp only [collectDefs]
    exact ih _ (mem_collectDef schema x d acc h)

theorem nodup_collectDefs (schema : Schema) (doc : List Definition) (acc : List String)
    (h : acc.Nodup) : (collectDefs schema doc acc).Nodup := by
  induction doc generalizing acc with
  | nil => simpa only [collectDefs] using h
  | cons d rest ih =>
    simp only [collectDefs]
    exact ih _ (nodup_collectDef schema d acc h)

theorem fragment_mem_collectDef (schema : Schema) (d : Definition) (acc : List String)
    (cond : String) (td : TypeDef)
    (hkind : d.kind = "FragmentDefinition") (htc : d.typeCondition = some cond)
    (hty : schema.getType cond = some td) :
    normalizeTypeName td.nameOf ∈ collectDef schema d acc := by
  unfold collectDef
  rw [if_neg (by simp [hkind]), if_pos hkind, htc]
  simp only [hty]
  cases hss : d.selectionSet <;> simp only
  · exact self_mem_addType acc td.nameOf
  · exact mem_collectSels schema _ _ _ _ (self_mem_addType acc td.nameOf)

theorem fragment_mem_collectDefs (schema : Schema) (d : Definition) (cond : String)
    (td : TypeDef) (hkind : d.kind = "FragmentDefinition") (htc : d.typeCondition = some cond)
    (hty : schema.getType cond = some td) :
    ∀ (doc : List Definition) (acc : List String), d ∈ doc →
      normalizeTypeName td.nameOf ∈ collectDefs schema doc acc
  | [], _, hd => absurd hd (List.not_mem_nil d)
  | d0 :: rest, acc, hd => by
    simp only [collectDefs]
    rcases List.mem_cons.mp hd with h0 | h0
    · subst h0
      exact mem_collectDefs schema _ rest _
        (fragment_mem_collectDef schema d acc cond td hkind htc hty)
    · exact fragment_mem_collectDefs schema d cond td hkind htc hty rest _ h0

/-- C4 (amended): `gatherAllReferencedTypes` returns a duplicate-free list
(the JS `Set` spread to an array) of normalized — lower-cased,
first-`"oneme"`-occurrence-stripped — names of the *output-position* types
the TypeInfo walk reports: operation root types, resolved field types, and
fragment / inline-fragment type conditions.  In particular a type referenced
only through a fragment spread is present whenever the fragment's definition
is part of the visited document.  Types referenced only in input positions
(variable definitions, argument values) are not collected. -/
theorem gatherAllReferencedTypes_set (schema : Schema) (doc : List Definition) :
    (gatherAllReferencedTypes schema doc).Nodup
    ∧ (∀ d ∈ doc, ∀ (cond : String) (td : TypeDef), d.kind = "FragmentDefinition" →
        d.typeCondition = some cond → schema.getType cond = some td →
        normalizeTypeName td.nameOf ∈ gatherAllReferencedTypes schema doc) := by
  constructor
  · exact nodup_collectDefs schema doc [] List.nodup_nil
  · intro d hd cond td hkind htc hty
    exact fragment_mem_collectDefs schema d cond td hkind htc hty doc [] hd

def myInputDef : TypeDef := .inputObject "MyInput" [⟨"v", .named "Int", none, []⟩]

/-- A schema declaring `Query { f : String }` and an input object `MyInput`. -/
def inputVarSchema : Schema :=
  { types := [.object "Query" [⟨"f", .named "String", none, []⟩], myInputDef] ++ fixtureScalars,
    queryTypeName := some "Query", mutationTypeName := none, subscriptionTypeName := none }

/-- The operation `query Q($x: MyInput) { f }`: here `MyInput` is referenced
only in the variable definition (an input position). -/
def inputVarQuery : Definition :=
  ⟨"OperationDefinition", some "query", some "Q",
    some [⟨"x", .named "MyInput"⟩], some [.field none "f" none none], none⟩

/-- Counterexample for C4: `MyInput` is a named type transitively referenced
by the document (`query Q($x: MyInput) { f }`) and defined in the schema, yet
its normalized name `"myinput"` is absent from the collector's result —
`typeInfo.getType()` reports only output-position types, never the input
types of variable definitions.  (The result is also an array, not a `Set`.) -/
theorem gatherAllReferencedTypes_misses_input_types :
    gatherAllReferencedTypes inputVarSchema [inputVarQuery] = ["query", "string"]
    ∧ normalizeTypeName "MyInput" = "myinput"
    ∧ "myinput" ∉ gatherAllReferencedTypes inputVarSchema [inputVarQuery]
    ∧ (inputVarSchema.getType "MyInput").isSome = true :=
  ⟨rfl, rfl, by decide, rfl⟩

def itemTypeDef : TypeDef := .object "Item" [⟨"id", .named "Int", none, []⟩]

/-- A schema declaring `Query { f : String }` and `Item { id : Int }` (the
latter reachable only through the fragment below). -/
def fragmentSchema : Schema :=
  { types := [.object "Query" [⟨"f", .named "String", none, []⟩], itemTypeDef] ++ fixtureScalars,
    queryTypeName := some "Query", mutationTypeName := none, subscriptionTypeName := none }

/-- The operation `query Q { f ...F }`. -/
def spreadQuery : Definition :=
  ⟨"OperationDefinition", some "query", some "Q", none,
    some [.field none "f" none none, .fragmentSpread "F"], none⟩

/-- The fragment `fragment F on Item { id }`. -/
def itemFragment : Definition :=
  ⟨"FragmentDefinition", none, some "F", none,
    some [.field none "id" none none], some "Item"⟩

/-- Witness for C4 (amended): on a document whose only reference to `Item` is
through the fragment spread `...F`, the result is duplicate-free and contains
`"item"` (the fragment's type condition) along with `"int"` (its field's
type). -/
theorem gatherAllReferencedTypes_set_witness :
    (gatherAllReferencedTypes fragmentSchema [spreadQuery, itemFragment]).Nodup
    ∧ "item" ∈ gatherAllReferencedTypes fragmentSchema [spreadQuery, itemFragment]
    ∧ gatherAllReferencedTypes fragmentSchema [spreadQuery, itemFragment] =
        ["query", "string", "item", "int"] := by
  have h := gatherAllReferencedTypes_set fragmentSchema [spreadQuery, itemFragment]
  exact ⟨h.1,
    h.2 itemFragment (List.mem_cons_of_mem _ (List.mem_cons_self _ _)) "Item" itemTypeDef
      rfl rfl rfl,
    rfl⟩
